import Mathlib

/-!
# Starstream Core — verification of the reference implementation

Shallow embedding of the two source modules of the repository:

* `scheduler_baselines.py` — SLO-constrained target selection
  (`score`, `ConstrainedBestScore.decide`, `ConstrainedEpsilonGreedy`
  with `decide`/`observe`), and
* `intent_control_plane_mvp.py` — the intent control plane
  (`Planner.plan`, `Engine.submit_intent`).

Python floats are modelled as rationals (`ℚ`), Python dicts with a fixed
key set as structures, and open key/value dicts (`payload`, `params`,
telemetry maps) as association lists (`List (key × value)`) preserving
Python's insertion-iteration order.  A Python function that can raise is
embedded as a function into `Except` (the error value abstracts the
exception), or, where the mutated object survives the exception, as a
function returning the error option together with the post-call state.
Nondeterministic inputs (uuid, time.time, random.random, random.choice)
are threaded as explicit parameters.
-/

set_option autoImplicit false

namespace Starstream

/-! ## Association-list helpers (Python dict access on string keys) -/

/-- First value bound to `k`, mirroring `d[k]` / `d.get(k)` on a dict
whose entries are listed in insertion order. -/
def alookup {α : Type} (l : List (String × α)) (k : String) : Option α :=
  (l.find? (fun p => p.1 = k)).map Prod.snd

/-- Replace the value bound to the first occurrence of `k` (used for
`d[k] = v` when `k` is already present, as in `d[k] += r`). -/
def aupdate {α : Type} (l : List (String × α)) (k : String) (v : α) :
    List (String × α) :=
  match l with
  | [] => []
  | p :: rest => if p.1 = k then (k, v) :: rest else p :: aupdate rest k v

/-- Python's `max(xs, key=f)` on the nonempty list `x :: xs`: scan left to
right, replacing the current best only on a strictly greater key, so the
first maximum wins. -/
def pyMaxBy {α : Type} (f : α → ℚ) (x : α) (xs : List α) : α :=
  xs.foldl (fun acc y => if f acc < f y then y else acc) x

/-! ## `scheduler_baselines.py` -/

/-- `SLO` dataclass: service-level-objective constraints. -/
structure SLO where
  latency_p95_ms : ℚ
  cost_per_1k : ℚ
  energy_j_max : ℚ
  deriving DecidableEq, Repr

/-- An estimate dict `{"lat_ms": _, "cost": _, "energy": _}` as produced
by `Models.estimate`; the keys are fixed so it is embedded as a record. -/
structure Est where
  lat_ms : ℚ
  cost : ℚ
  energy : ℚ
  deriving DecidableEq, Repr

/-- `score(est, slo)` from `scheduler_baselines.py`: higher is better;
each penalty denominator is floored (`max(·, 1e-6)` or `max(·, 1e-9)`). -/
def score (est : Est) (slo : SLO) : ℚ :=
  let lat_pen := est.lat_ms / max slo.latency_p95_ms (1/1000000 : ℚ)
  let cost_pen := est.cost / max slo.cost_per_1k (1/1000000000 : ℚ)
  let energy_pen := est.energy / max slo.energy_j_max (1/1000000000 : ℚ)
  1 / ((55/100 : ℚ) * lat_pen + (30/100 : ℚ) * cost_pen
    + (15/100 : ℚ) * energy_pen)

/-- The scoring formula exactly as the claim states it, without the
denominator floors of the implementation.  Used only to compare the
spec's words with `score`. -/
def scoreClaimFormula (est : Est) (slo : SLO) : ℚ :=
  1 / ((55/100 : ℚ) * (est.lat_ms / slo.latency_p95_ms)
    + (30/100 : ℚ) * (est.cost / slo.cost_per_1k)
    + (15/100 : ℚ) * (est.energy / slo.energy_j_max))

/-- The fixed candidate list `cands = ["photonic", "gpu", "cpu"]`. -/
def cands : List String := ["photonic", "gpu", "cpu"]

/-- The safety test shared by both schedulers
(`ConstrainedEpsilonGreedy._safe` and the inline test in
`ConstrainedBestScore.decide`):
`est["lat_ms"] <= slo.latency_p95_ms * 1.05 and est["energy"] <= slo.energy_j_max * 1.1`. -/
def safeTest (est : Est) (slo : SLO) : Bool :=
  est.lat_ms ≤ slo.latency_p95_ms * (105/100 : ℚ)
    && est.energy ≤ slo.energy_j_max * (11/10 : ℚ)

/-- The candidates passing the safety filter, in candidate order.
`Models.estimate` depends only on the target and the (fixed) context, so
the estimator applied to the context is threaded as `est : String → Est`. -/
def safeFilter (est : String → Est) (slo : SLO) : List String :=
  cands.filter (fun t => safeTest (est t) slo)

/-- Decision metadata returned by `ConstrainedBestScore.decide`. -/
structure BestInfo where
  target : String
  expected : Est
  decScore : ℚ
  deriving Repr

/-- The `max(..., key=lambda x: x[2])` step of
`ConstrainedBestScore.decide` on a nonempty scored list, with the
repackaging of the winner into the returned pair. -/
def bestOf (x : String × Est × ℚ) (xs : List (String × Est × ℚ)) :
    String × BestInfo :=
  let best := pyMaxBy (fun y => y.2.2) x xs
  (best.1, ⟨best.1, best.2.1, best.2.2⟩)

/-- `ConstrainedBestScore.decide(slo, context)`: filter candidates for
safety, fall back to all candidates when none is safe, and return the
first best-scoring target.  `est` is `self.models.estimate(·, context)`.
The empty match arm is unreachable (`cands` is nonempty); Python's `max`
would raise there. -/
def bestScoreDecide (est : String → Est) (slo : SLO) : String × BestInfo :=
  let safe := (safeFilter est slo).map (fun t => (t, est t))
  let safe2 := if safe.isEmpty then cands.map (fun t => (t, est t)) else safe
  match safe2.map (fun p => (p.1, p.2, score p.2 slo)) with
  | [] => ("", ⟨"", ⟨0, 0, 0⟩, 0⟩)
  | x :: xs => bestOf x xs

/-- Mutable state of a `ConstrainedEpsilonGreedy` instance: the fields
set by `__init__` (`models` is pure and threaded separately). -/
structure EGState where
  eps : ℚ
  canary : ℚ
  mu : List (String × ℚ)
  n : List (String × ℚ)
  deriving Repr

/-- `ConstrainedEpsilonGreedy(eps, canary)`: `mu = {t: 0.0}` and
`n = {t: 1}` over the three tracked targets. -/
def initEG (eps canary : ℚ) : EGState :=
  { eps := eps
    canary := canary
    mu := cands.map (fun t => (t, 0))
    n := cands.map (fun t => (t, 1)) }

/-- Decision metadata returned by `ConstrainedEpsilonGreedy.decide`. -/
structure EGInfo where
  target : String
  expected : Est
  mode : String
  canary_fraction : ℚ
  deriving Repr

/-- The exploit-branch dict comprehension
`vals = {t: score(ests[t], slo) + self.mu[t] / self.n[t] for t in safe}`:
built in iteration order; the first missing key raises `KeyError`. -/
def egVals (s : EGState) (est : String → Est) (slo : SLO) :
    List String → Except String (List (String × ℚ))
  | [] => .ok []
  | t :: ts => do
    let m ← (alookup s.mu t).elim (Except.error "KeyError") Except.ok
    let k ← (alookup s.n t).elim (Except.error "KeyError") Except.ok
    let rest ← egVals s est slo ts
    .ok ((t, score (est t) slo + m / k) :: rest)

/-- `ConstrainedEpsilonGreedy.decide(slo, context)`.  `r` is the draw of
`random.random()` (a value in `[0,1)`), `i` determines `random.choice`'s
pick as an index into the safe list.  The exploit branch reads
`self.mu[t]` and `self.n[t]`, which raise `KeyError` on an untracked
target; the empty match arm is unreachable since the safe list is
nonempty. -/
def egDecide (s : EGState) (est : String → Est) (slo : SLO) (r : ℚ)
    (i : ℕ) : Except String (String × EGInfo) :=
  let filtered := safeFilter est slo
  let safe := if filtered.isEmpty then cands else filtered
  if r < s.eps then
    let choice := safe.getD (i % safe.length) ""
    .ok (choice, ⟨choice, est choice, "explore", s.canary⟩)
  else
    (do
      let vals ← egVals s est slo safe
      match vals with
      | [] => Except.error "max on empty sequence"
      | v :: vs =>
        let choice := (pyMaxBy (fun kv => kv.2) v vs).1
        Except.ok (choice, ⟨choice, est choice, "exploit", s.canary⟩))

/-- An observed-outcome dict passed to `observe`; `cost` and `lat_ms`
may be absent (`actual.get` supplies defaults). -/
structure Outcome where
  cost : Option ℚ
  lat_ms : Option ℚ
  deriving Repr

/-- The reward computed inside `observe`:
`1.0 / max(float(actual.get("cost", 1e-4)), 1e-4) - 0.5 * max(0.0, float(actual.get("lat_ms", 0.0)))`. -/
def rewardOf (actual : Outcome) : ℚ :=
  1 / max (actual.cost.getD (1/10000 : ℚ)) (1/10000 : ℚ)
    - (1/2 : ℚ) * max 0 (actual.lat_ms.getD 0)

/-- `ConstrainedEpsilonGreedy.observe(target, actual)`.  Returns the
exception (if any) together with the state the instance is left in:
`self.mu[target] += r` raises `KeyError` before mutating anything when
`target` is untracked; `self.n[target] += 1` runs after `mu` was already
updated. -/
def observe (s : EGState) (target : String) (actual : Outcome) :
    Option String × EGState :=
  let r := rewardOf actual
  match alookup s.mu target with
  | none => (some "KeyError", s)
  | some m =>
    let s1 := { s with mu := aupdate s.mu target (m + r) }
    match alookup s1.n target with
    | none => (some "KeyError", s1)
    | some k => (none, { s1 with n := aupdate s1.n target (k + 1) })

/-- The candidate list actually considered by `bestScoreDecide` /
`egDecide`: the safe candidates, or all candidates when none is safe
(spec-side name for stating theorems). -/
def considered (est : String → Est) (slo : SLO) : List String :=
  if safeFilter est slo = [] then cands else safeFilter est slo

/-- The exploit-branch valuation `score(ests[t], slo) + mu[t] / n[t]`
(spec-side name; on tracked targets the `getD` defaults are never
used). -/
def egVal (s : EGState) (est : String → Est) (slo : SLO) (t : String) : ℚ :=
  score (est t) slo + (alookup s.mu t).getD 0 / (alookup s.n t).getD 1

/-! ## `intent_control_plane_mvp.py` -/

/-- A Python value appearing in an open `payload` / `params` dict.
`float()` of a non-numeric value is modelled as the conversion failing
(the claims only exercise numeric fields). -/
inductive Value : Type where
  | pyNone : Value
  | num : ℚ → Value
  | int : ℤ → Value
  | str : String → Value
  deriving DecidableEq, Repr

/-- `float(v)`: succeeds on numbers, modelled as failing otherwise. -/
def pyFloat : Value → Except String ℚ
  | .num q => .ok q
  | .int z => .ok (z : ℚ)
  | _ => .error "could not convert to float"

/-- `Link` dataclass. -/
structure Link where
  src : String
  dst : String
  capacity_gbps : ℚ
  base_latency_ms : ℚ
  tags : List (String × String) := []
  deriving Repr

/-- `Topology` dataclass. -/
structure Topology where
  nodes : List String
  links : List Link
  deriving Repr

/-- `ResourceSnapshot` dataclass; the three telemetry dicts keep
Python's insertion-iteration order. -/
structure ResourceSnapshot where
  timestamp : ℚ
  link_utilization : List ((String × String) × ℚ)
  link_loss : List ((String × String) × ℚ)
  link_latency_ms : List ((String × String) × ℚ)
  notes : List (String × Value) := []
  deriving Repr

/-- `Intent` dataclass; `payload` is an open dict. -/
structure Intent where
  intent_id : String
  created_at : ℚ
  kind : String
  payload : List (String × Value)
  deriving Repr

/-- `Policy` dataclass with its defaults. -/
structure Policy where
  max_link_utilization : ℚ := 85/100
  max_packet_loss : ℚ := 2/100
  require_verification : Bool := true
  deriving Repr

/-- `Action` dataclass. -/
structure Action where
  action_type : String
  params : List (String × Value)
  deriving DecidableEq, Repr

/-- `Plan` dataclass. -/
structure Plan where
  plan_id : String
  intent_id : String
  created_at : ℚ
  actions : List Action
  expected_impact : List (String × Value) := []
  deriving Repr

/-- An exception escaping `Planner.plan`: the `ValueError` for an
unsupported kind, a `KeyError` from `payload["source"]` /
`payload["destination"]` / `payload["bandwidth_gbps"]`, or a failing
`float()` conversion. -/
inductive PlanErr : Type where
  | unsupportedKind : String → PlanErr
  | keyError : String → PlanErr
  | valueError : String → PlanErr
  deriving DecidableEq, Repr

/-- `Planner.plan(topology, snapshot, intent, policy)`.  The generated
`plan_id` (uuid) and `created_at` (time.time) are threaded in as
`planId` and `now`. -/
def plannerPlan (_topology : Topology) (_snapshot : ResourceSnapshot)
    (intent : Intent) (policy : Policy) (planId : String) (now : ℚ) :
    Except PlanErr Plan :=
  if intent.kind ≠ "bandwidth" then
    .error (.unsupportedKind intent.kind)
  else do
    let src ← (alookup intent.payload "source").elim
      (Except.error (.keyError "source")) Except.ok
    let dst ← (alookup intent.payload "destination").elim
      (Except.error (.keyError "destination")) Except.ok
    let bwv ← (alookup intent.payload "bandwidth_gbps").elim
      (Except.error (.keyError "bandwidth_gbps")) Except.ok
    let bw ← (pyFloat bwv).mapError .valueError
    let max_lat := (alookup intent.payload "max_latency_ms").getD .pyNone
    let actions := [Action.mk "allocate_flow"
      [("source", src),
       ("destination", dst),
       ("bandwidth_gbps", .num bw),
       ("max_latency_ms", max_lat),
       ("policy_max_util", .num policy.max_link_utilization),
       ("policy_max_loss", .num policy.max_packet_loss)]]
    .ok { plan_id := planId
          intent_id := intent.intent_id
          created_at := now
          actions := actions
          expected_impact :=
            [("goal", .str "satisfy_bandwidth_intent"),
             ("notes", .str "MVP stub planner emits allocate_flow action.")] }

/-- The result message of one `submit_intent` cycle.  The source builds
a formatted string; the inductive carries the same content (the
offending loss and the threshold for a verification failure). -/
inductive Msg : Type where
  | applied : Msg
  | verificationFailed : ℚ → ℚ → Msg
  deriving DecidableEq, Repr

/-- `ExecutionResult` dataclass. -/
structure ExecutionResult where
  plan_id : String
  ok : Bool
  applied_actions : List Action
  before : ResourceSnapshot
  after : ResourceSnapshot
  message : Msg
  deriving Repr

/-- One entry of `Engine.audit_log`. -/
structure AuditEntry where
  intent_id : String
  plan_id : String
  ok : Bool
  message : Msg
  ts : ℚ
  deriving Repr

/-- An exception escaping `Engine.submit_intent`: a planner error or an
exception raised by `Executor.apply` (carried as its detail string). -/
inductive EngineErr : Type where
  | planErr : PlanErr → EngineErr
  | applyExc : String → EngineErr
  deriving DecidableEq, Repr

/-- The verification loop of `submit_intent` (lines 217–223): scan the
after-snapshot's `link_loss` in iteration order and stop at the first
loss exceeding `policy.max_packet_loss`. -/
def verifyLoop (maxLoss : ℚ) : List ((String × String) × ℚ) → Bool × Msg
  | [] => (true, .applied)
  | (_, loss) :: rest =>
    if loss > maxLoss then (false, .verificationFailed loss maxLoss)
    else verifyLoop maxLoss rest

/-- Engine state owned across `submit_intent` calls: the policy and the
append-only audit log (topology, telemetry and executor are threaded at
the call). -/
structure EngineState where
  topology : Topology
  policy : Policy
  audit_log : List AuditEntry
  deriving Repr

/-- `Engine.submit_intent(intent)`.  External collaborators are threaded
in: `telemBefore`/`telemAfter` are the results of the two
`telemetry.snapshot()` calls, `applyF` is `executor.apply` (an
`Except.error` models the executor raising).  `planId`, `planNow` and
`auditTs` stand for the generated uuid and `time.time()` reads.  Returns
the result (or the escaping exception) together with the engine state
after the call; an exception escapes before the audit append, leaving
the log unchanged. -/
def submitIntent (eng : EngineState) (telemBefore telemAfter : ResourceSnapshot)
    (applyF : List Action → Except String Unit) (intent : Intent)
    (planId : String) (planNow auditTs : ℚ) :
    Except EngineErr ExecutionResult × EngineState :=
  let before := telemBefore
  match plannerPlan eng.topology before intent eng.policy planId planNow with
  | .error e => (.error (.planErr e), eng)
  | .ok plan =>
    match applyF plan.actions with
    | .error e => (.error (.applyExc e), eng)
    | .ok _ =>
      let after := telemAfter
      let okMsg :=
        if eng.policy.require_verification then
          verifyLoop eng.policy.max_packet_loss after.link_loss
        else (true, .applied)
      let entry : AuditEntry :=
        { intent_id := intent.intent_id
          plan_id := plan.plan_id
          ok := okMsg.1
          message := okMsg.2
          ts := auditTs }
      (.ok { plan_id := plan.plan_id
             ok := okMsg.1
             applied_actions := plan.actions
             before := before
             after := after
             message := okMsg.2 },
       { eng with audit_log := eng.audit_log ++ [entry] })

/-- The single action the spec expects a bandwidth plan to carry: its
params restate the intent's source/destination/bandwidth/max-latency
and the policy's two thresholds (spec-side name for stating C2). -/
def allocFlowAction (src dst : Value) (bw : ℚ) (maxLat : Value)
    (policy : Policy) : Action :=
  Action.mk "allocate_flow"
    [("source", src),
     ("destination", dst),
     ("bandwidth_gbps", .num bw),
     ("max_latency_ms", maxLat),
     ("policy_max_util", .num policy.max_link_utilization),
     ("policy_max_loss", .num policy.max_packet_loss)]

/-! ## Concrete fixtures (from `example()` / `SimTelemetry` / `_demo`) -/

/-- The three-node topology of `example()`. -/
def topoC : Topology :=
  ⟨["A", "B", "C"],
   [⟨"A", "B", 100, 8, []⟩, ⟨"B", "C", 100, 12, []⟩, ⟨"A", "C", 50, 30, []⟩]⟩

/-- The snapshot returned by `SimTelemetry.snapshot` (losses 0.005,
0.010, 0.030). -/
def snapC : ResourceSnapshot :=
  { timestamp := 0
    link_utilization := [(("A", "B"), 1/2), (("B", "C"), 3/5), (("A", "C"), 9/10)]
    link_loss := [(("A", "B"), 1/200), (("B", "C"), 1/100), (("A", "C"), 3/100)]
    link_latency_ms := [(("A", "B"), 8), (("B", "C"), 12), (("A", "C"), 30)] }

/-- The bandwidth intent of `example()` (ids/timestamps fixed). -/
def intentC : Intent :=
  { intent_id := "int-1"
    created_at := 0
    kind := "bandwidth"
    payload :=
      [("source", .str "A"),
       ("destination", .str "C"),
       ("bandwidth_gbps", .num 50),
       ("max_latency_ms", .num 25),
       ("priority", .int 5)] }

/-- An engine over `topoC` with the default policy and an empty audit
log. -/
def engC : EngineState :=
  { topology := topoC, policy := {}, audit_log := [] }

/-- The plan `plannerPlan` produces for `intentC` under the default
policy with `plan_id = "p"`, `created_at = 0`. -/
def planC : Plan :=
  { plan_id := "p"
    intent_id := "int-1"
    created_at := 0
    actions :=
      [Action.mk "allocate_flow"
        [("source", .str "A"),
         ("destination", .str "C"),
         ("bandwidth_gbps", .num 50),
         ("max_latency_ms", .num 25),
         ("policy_max_util", .num (85/100)),
         ("policy_max_loss", .num (2/100))]]
    expected_impact :=
      [("goal", .str "satisfy_bandwidth_intent"),
       ("notes", .str "MVP stub planner emits allocate_flow action.")] }

/-- An intent of an unsupported kind. -/
def intentBad : Intent :=
  { intent_id := "int-2", created_at := 0, kind := "latency", payload := [] }

/-- The execution result of submitting `intentC` to `engC` when both
snapshots are `snapC`: verification fails at the first loss exceeding
the threshold (0.030 on link A–C, against 0.020). -/
def resC : ExecutionResult :=
  { plan_id := "p"
    ok := false
    applied_actions := planC.actions
    before := snapC
    after := snapC
    message := .verificationFailed (3/100) (2/100) }

/-- A concrete estimator (the base means of `Models`, load factor 0). -/
def estC : String → Est := fun t =>
  if t = "photonic" then ⟨2/5, 1/5000, 1⟩
  else if t = "gpu" then ⟨6/5, 1/2000, 5⟩
  else ⟨4, 1/10000, 2⟩

/-- The SLO of `_demo`. -/
def sloC : SLO := ⟨2, 1/2000, 6⟩

/-! ## Helper lemmas -/

theorem pyMaxBy_cons {α : Type} (f : α → ℚ) (x y : α) (ys : List α) :
    pyMaxBy f x (y :: ys) = pyMaxBy f (if f x < f y then y else x) ys := rfl

theorem pyMaxBy_mem {α : Type} (f : α → ℚ) (x : α) (xs : List α) :
    pyMaxBy f x xs ∈ x :: xs := by
  induction xs generalizing x with
  | nil => simp [pyMaxBy]
  | cons y ys ih =>
    rw [pyMaxBy_cons]
    by_cases h : f x < f y
    · rw [if_pos h]
      rcases List.mem_cons.mp (ih y) with h1 | h1 <;>
        simp [List.mem_cons, h1]
    · rw [if_neg h]
      rcases List.mem_cons.mp (ih x) with h1 | h1 <;>
        simp [List.mem_cons, h1]

theorem le_pyMaxBy {α : Type} (f : α → ℚ) (x : α) (xs : List α) :
    ∀ b ∈ x :: xs, f b ≤ f (pyMaxBy f x xs) := by
  induction xs generalizing x with
  | nil =>
    intro b hb
    rcases List.mem_cons.mp hb with h1 | h1
    · subst h1; exact le_refl _
    · cases h1
  | cons y ys ih =>
    intro b hb
    rw [pyMaxBy_cons]
    by_cases h : f x < f y
    · rw [if_pos h]
      rcases List.mem_cons.mp hb with h1 | h1
      · rw [h1]
        exact le_trans (le_of_lt h) (ih y y (List.mem_cons_self _ _))
      · exact ih y b h1
    · rw [if_neg h]
      rcases List.mem_cons.mp hb with h1 | h1
      · rw [h1]; exact ih x x (List.mem_cons_self _ _)
      · rcases List.mem_cons.mp h1 with h2 | h2
        · rw [h2]
          exact le_trans (le_of_not_lt h) (ih x x (List.mem_cons_self _ _))
        · exact ih x b (List.mem_cons.mpr (Or.inr h2))

theorem all_map_general {α β : Type} (f : α → β) (l : List α)
    (p : β → Bool) : (l.map f).all p = l.all (fun a => p (f a)) := by
  induction l with
  | nil => rfl
  | cons a l ih => simp [List.all_cons, ih]

theorem find?_congr {α : Type} {p q : α → Bool} (h : ∀ a, p a = q a) :
    ∀ l : List α, l.find? p = l.find? q := by
  intro l
  induction l with
  | nil => rfl
  | cons a l ih => simp only [List.find?_cons, h a, ih]

/-- Python's `max(·, key=f)` returns the first element whose key is
maximal: it is the `find?` of "at least as large as everything". -/
theorem pyMaxBy_eq_find? {α : Type} (f : α → ℚ) (x : α) (xs : List α) :
    (x :: xs).find? (fun a => (x :: xs).all (fun b => decide (f b ≤ f a)))
      = some (pyMaxBy f x xs) := by
  induction xs generalizing x with
  | nil => simp [pyMaxBy, List.find?_cons]
  | cons y ys ih =>
    rw [pyMaxBy_cons]
    by_cases h : f x < f y
    · rw [if_pos h]
      have hpt : ∀ a,
          ((x :: y :: ys).all (fun b => decide (f b ≤ f a)))
            = ((y :: ys).all (fun b => decide (f b ≤ f a))) := by
        intro a
        by_cases hq : (y :: ys).all (fun b => decide (f b ≤ f a)) = true
        · have hy : f y ≤ f a := by
            have := List.all_eq_true.mp hq y (List.mem_cons_self _ _)
            exact of_decide_eq_true this
          simp [List.all_cons, hq, le_trans (le_of_lt h) hy]
        · rw [Bool.eq_false_iff.mpr hq]
          rw [List.all_cons (l := y :: ys)]
          rw [Bool.eq_false_iff.mpr hq]
          simp
      rw [find?_congr hpt]
      have hx : ¬ (((y :: ys).all (fun b => decide (f b ≤ f x))) = true) := by
        intro hall
        have := List.all_eq_true.mp hall y (List.mem_cons_self _ _)
        exact absurd (of_decide_eq_true this) (not_le.mpr h)
      rw [List.find?_cons_of_neg
        (p := fun a => (y :: ys).all (fun b => decide (f b ≤ f a))) _ hx]
      exact ih y
    · rw [if_neg h]
      have hyx : f y ≤ f x := le_of_not_lt h
      have hpt : ∀ a,
          ((x :: y :: ys).all (fun b => decide (f b ≤ f a)))
            = ((x :: ys).all (fun b => decide (f b ≤ f a))) := by
        intro a
        by_cases hq : (x :: ys).all (fun b => decide (f b ≤ f a)) = true
        · have hxa : f x ≤ f a := by
            have := List.all_eq_true.mp hq x (List.mem_cons_self _ _)
            exact of_decide_eq_true this
          have hya : f y ≤ f a := le_trans hyx hxa
          rw [List.all_eq_true.mpr, List.all_eq_true.mpr]
          · intro b hb
            exact List.all_eq_true.mp hq b hb
          · intro b hb
            rcases List.mem_cons.mp hb with h1 | h1
            · subst h1; exact decide_eq_true hxa
            · rcases List.mem_cons.mp h1 with h2 | h2
              · subst h2; exact decide_eq_true hya
              · exact List.all_eq_true.mp hq b
                  (List.mem_cons.mpr (Or.inr h2))
        · rw [Bool.eq_false_iff.mpr hq]
          apply Bool.eq_false_iff.mpr
          intro hall
          apply hq
          rw [List.all_eq_true] at hall ⊢
          intro b hb
          rcases List.mem_cons.mp hb with h1 | h1
          · exact hall b (by subst h1; exact List.mem_cons_self _ _)
          · exact hall b (List.mem_cons.mpr
              (Or.inr (List.mem_cons.mpr (Or.inr h1))))
      rw [find?_congr hpt]
      by_cases hx : ((x :: ys).all (fun b => decide (f b ≤ f x))) = true
      · rw [List.find?_cons_of_pos
          (p := fun a => (x :: ys).all (fun b => decide (f b ≤ f a))) _ hx]
        exact (List.find?_cons_of_pos
          (p := fun a => (x :: ys).all (fun b => decide (f b ≤ f a)))
          _ hx).symm.trans (ih x)
      · have hyfalse :
            ¬ (((x :: ys).all (fun b => decide (f b ≤ f y))) = true) := by
          intro hall
          apply hx
          rw [List.all_eq_true] at hall ⊢
          intro b hb
          exact decide_eq_true (le_trans (of_decide_eq_true (hall b hb)) hyx)
        rw [List.find?_cons_of_neg
          (p := fun a => (x :: ys).all (fun b => decide (f b ≤ f a))) _ hx,
          List.find?_cons_of_neg
          (p := fun a => (x :: ys).all (fun b => decide (f b ≤ f a))) _ hyfalse]
        exact (List.find?_cons_of_neg
          (p := fun a => (x :: ys).all (fun b => decide (f b ≤ f a)))
          _ hx).symm.trans (ih x)

theorem verifyLoop_eq_find? (m : ℚ) (l : List ((String × String) × ℚ)) :
    verifyLoop m l =
      match l.find? (fun kv => decide (m < kv.2)) with
      | some kv => (false, Msg.verificationFailed kv.2 m)
      | none => (true, Msg.applied) := by
  induction l with
  | nil => rfl
  | cons p rest ih =>
    obtain ⟨k, loss⟩ := p
    by_cases h : m < loss
    · simp [verifyLoop, List.find?_cons, h, gt_iff_lt]
    · simp [verifyLoop, List.find?_cons, h, gt_iff_lt, ih]

theorem alookup_cons {α : Type} (p : String × α) (l : List (String × α))
    (k : String) :
    alookup (p :: l) k = if p.1 = k then some p.2 else alookup l k := by
  by_cases h : p.1 = k <;> simp [alookup, List.find?_cons, h]

theorem alookup_aupdate_self {α : Type} (l : List (String × α)) (k : String)
    (v : α) (h : (alookup l k).isSome) :
    alookup (aupdate l k v) k = some v := by
  induction l with
  | nil => simp [alookup] at h
  | cons p rest ih =>
    by_cases hp : p.1 = k
    · simp [aupdate, hp, alookup_cons]
    · rw [alookup_cons, if_neg hp] at h
      simp [aupdate, hp, alookup_cons, ih h]

theorem alookup_aupdate_ne {α : Type} (l : List (String × α)) (k k2 : String)
    (v : α) (h : k2 ≠ k) :
    alookup (aupdate l k v) k2 = alookup l k2 := by
  induction l with
  | nil => rfl
  | cons p rest ih =>
    by_cases hp : p.1 = k
    · simp [aupdate, hp, alookup_cons, Ne.symm h]
    · simp [aupdate, hp, alookup_cons, ih]

theorem alookup_map_const_none {α : Type} (ts : List String) (g : String → α)
    (t : String) (h : t ∉ ts) :
    alookup (ts.map (fun u => (u, g u))) t = none := by
  induction ts with
  | nil => rfl
  | cons u us ih =>
    rw [List.mem_cons] at h
    push_neg at h
    rw [List.map_cons, alookup_cons]
    rw [if_neg (by simpa using (Ne.symm h.1))]
    exact ih h.2

theorem considered_ne_nil (est : String → Est) (slo : SLO) :
    considered est slo ≠ [] := by
  unfold considered
  split
  · simp [cands]
  · assumption

theorem considered_subset_cands (est : String → Est) (slo : SLO) :
    ∀ t ∈ considered est slo, t ∈ cands := by
  intro t ht
  unfold considered at ht
  split at ht
  · exact ht
  · unfold safeFilter at ht
    exact List.mem_of_mem_filter ht

theorem bestScoreDecide_eq (est : String → Est) (slo : SLO) (u : String)
    (us : List String) (h : considered est slo = u :: us) :
    bestScoreDecide est slo =
      bestOf (u, est u, score (est u) slo)
        (us.map (fun t => (t, est t, score (est t) slo))) := by
  by_cases hf : safeFilter est slo = []
  · have hc : considered est slo = cands := by simp [considered, hf]
    rw [hc] at h
    simp only [cands, List.cons.injEq] at h
    obtain ⟨hu, h2⟩ := h
    subst hu; subst h2
    simp [bestScoreDecide, hf, cands]
  · have hc : considered est slo = safeFilter est slo := by
      simp [considered, hf]
    rw [hc] at h
    simp only [bestScoreDecide, h, List.isEmpty_cons, List.map_cons,
      List.map_map]
    simp only [Bool.false_eq_true, if_false, List.map_cons, List.map_map]
    rfl

theorem bestScoreDecide_mem (est : String → Est) (slo : SLO) :
    (bestScoreDecide est slo).1 ∈ considered est slo := by
  rcases hc : considered est slo with _ | ⟨u, us⟩
  · exact absurd hc (considered_ne_nil est slo)
  · rw [bestScoreDecide_eq est slo u us hc]
    have hmem := pyMaxBy_mem (fun y : String × Est × ℚ => y.2.2)
      (u, est u, score (est u) slo)
      (us.map (fun t => (t, est t, score (est t) slo)))
    rw [← List.map_cons (fun t => (t, est t, score (est t) slo)) u us] at hmem
    obtain ⟨t0, ht0, htrip⟩ := List.mem_map.mp hmem
    show (pyMaxBy (fun y : String × Est × ℚ => y.2.2) _ _).1 ∈ _
    rw [← htrip]
    exact ht0

theorem bestScoreDecide_find? (est : String → Est) (slo : SLO) :
    (considered est slo).find?
        (fun t => (considered est slo).all
          (fun v => decide (score (est v) slo ≤ score (est t) slo)))
      = some (bestScoreDecide est slo).1 := by
  rcases hc : considered est slo with _ | ⟨u, us⟩
  · exact absurd hc (considered_ne_nil est slo)
  · rw [bestScoreDecide_eq est slo u us hc]
    have hfind := pyMaxBy_eq_find? (fun y : String × Est × ℚ => y.2.2)
      (u, est u, score (est u) slo)
      (us.map (fun t => (t, est t, score (est t) slo)))
    rw [← List.map_cons (fun t => (t, est t, score (est t) slo)) u us,
      List.find?_map] at hfind
    have hpt : ∀ t : String,
        ((fun a : String × Est × ℚ =>
            ((u :: us).map (fun t => (t, est t, score (est t) slo))).all
              (fun b => decide (b.2.2 ≤ a.2.2)))
          ∘ (fun t => (t, est t, score (est t) slo))) t
          = (fun t => (u :: us).all
              (fun v => decide (score (est v) slo ≤ score (est t) slo))) t := by
      intro t
      show ((u :: us).map (fun t => (t, est t, score (est t) slo))).all
          (fun b => decide (b.2.2 ≤ score (est t) slo))
        = (u :: us).all
          (fun v => decide (score (est v) slo ≤ score (est t) slo))
      rw [all_map_general]
    rw [find?_congr hpt] at hfind
    rcases hmo : (u :: us).find?
        (fun t => (u :: us).all
          (fun v => decide (score (est v) slo ≤ score (est t) slo)))
        with _ | t0
    · rw [hmo] at hfind
      simp at hfind
    · rw [hmo] at hfind
      simp only [Option.map_some'] at hfind
      injection hfind with hf2
      show _ = some (pyMaxBy (fun y : String × Est × ℚ => y.2.2) _ _).1
      rw [← hf2]

theorem egVals_eq (s : EGState) (est : String → Est) (slo : SLO)
    (ts : List String)
    (h : ∀ t ∈ ts, (alookup s.mu t).isSome ∧ (alookup s.n t).isSome) :
    egVals s est slo ts = .ok (ts.map (fun t => (t, egVal s est slo t))) := by
  induction ts with
  | nil => rfl
  | cons t ts ih =>
    obtain ⟨hm0, hn0⟩ := h t (List.mem_cons_self _ _)
    obtain ⟨m, hm⟩ := Option.isSome_iff_exists.mp hm0
    obtain ⟨k, hn⟩ := Option.isSome_iff_exists.mp hn0
    have ihr := ih (fun u hu => h u (List.mem_cons_of_mem _ hu))
    simp [egVals, hm, hn, ihr, egVal]
    rfl

theorem egSafe_eq_considered (est : String → Est) (slo : SLO) :
    (if (safeFilter est slo).isEmpty then cands else safeFilter est slo)
      = considered est slo := by
  unfold considered
  by_cases hf : safeFilter est slo = [] <;> simp [hf, List.isEmpty_iff]

theorem getD_mod_mem (l : List String) (i : ℕ) (h : l ≠ []) :
    l.getD (i % l.length) "" ∈ l := by
  have hlen : i % l.length < l.length :=
    Nat.mod_lt _ (List.length_pos.mpr h)
  rw [List.getD_eq_getElem?_getD, List.getElem?_eq_getElem hlen]
  exact List.getElem_mem hlen

theorem except_bind_ok {ε α β : Type} (a : α) (f : α → Except ε β) :
    (Except.ok a >>= f : Except ε β) = f a := rfl

theorem pyMaxBy_pairs (g : String → ℚ) (u : String) (us : List String) :
    (pyMaxBy (fun kv : String × ℚ => kv.2) (u, g u)
        (us.map (fun t => (t, g t)))).1 ∈ u :: us
    ∧ ∀ w ∈ u :: us,
        g w ≤ g (pyMaxBy (fun kv : String × ℚ => kv.2) (u, g u)
          (us.map (fun t => (t, g t)))).1 := by
  have hmem := pyMaxBy_mem (fun kv : String × ℚ => kv.2) (u, g u)
    (us.map (fun t => (t, g t)))
  rw [← List.map_cons (fun t => (t, g t)) u us] at hmem
  obtain ⟨t0, ht0, heq⟩ := List.mem_map.mp hmem
  have h1 : (pyMaxBy (fun kv : String × ℚ => kv.2) (u, g u)
      (us.map (fun t => (t, g t)))).1 = t0 := by rw [← heq]
  have h2 : (pyMaxBy (fun kv : String × ℚ => kv.2) (u, g u)
      (us.map (fun t => (t, g t)))).2 = g t0 := by rw [← heq]
  constructor
  · rw [h1]; exact ht0
  · intro w hw
    have hle := le_pyMaxBy (fun kv : String × ℚ => kv.2) (u, g u)
      (us.map (fun t => (t, g t))) (w, g w)
      (by rw [← List.map_cons (fun t => (t, g t)) u us]
          exact List.mem_map_of_mem _ hw)
    rw [h1, ← h2]
    exact hle

/-! ## Claim theorems -/

/-- C4: for every SLO and context (threaded as the estimator `est`),
`ConstrainedBestScore.decide` treats a candidate as safe iff its
estimated `lat_ms ≤ 1.05 × slo.latency_p95_ms` and its estimated
`energy ≤ 1.10 × slo.energy_j_max`; if no candidate is safe it
considers all candidates instead; and it always returns some target
from `{photonic, gpu, cpu}` (it is total — it never fails). -/
theorem claim_C4 (est : String → Est) (slo : SLO) :
    (∀ t, t ∈ safeFilter est slo ↔
        t ∈ cands
          ∧ (est t).lat_ms ≤ (105/100 : ℚ) * slo.latency_p95_ms
          ∧ (est t).energy ≤ (110/100 : ℚ) * slo.energy_j_max)
    ∧ (safeFilter est slo = [] → considered est slo = cands)
    ∧ (safeFilter est slo ≠ [] → considered est slo = safeFilter est slo)
    ∧ (bestScoreDecide est slo).1 ∈ considered est slo
    ∧ (bestScoreDecide est slo).1 ∈ cands := by
  refine ⟨?_, ?_, ?_, bestScoreDecide_mem est slo,
    considered_subset_cands est slo _ (bestScoreDecide_mem est slo)⟩
  · intro t
    simp only [safeFilter, List.mem_filter, safeTest, Bool.and_eq_true,
      decide_eq_true_eq]
    constructor
    · rintro ⟨h1, h2, h3⟩
      exact ⟨h1, by linarith, by linarith⟩
    · rintro ⟨h1, h2, h3⟩
      exact ⟨h1, by linarith, by linarith⟩
  · intro hf
    simp [considered, hf]
  · intro hf
    simp [considered, hf]

/-- C4 applied at the demo estimator and SLO: the decision is one of
the three candidates. -/
theorem claim_C4_witness : (bestScoreDecide estC sloC).1 ∈ cands :=
  (claim_C4 estC sloC).2.2.2.2

/-- C6 counterexample: the claim's score formula (no denominator
floors) disagrees with the implementation's `score` on an SLO with
`latency_p95_ms = 1e-7 < 1e-6`. -/
theorem claim_C6_counterexample :
    score ⟨1, 1, 1⟩ ⟨1/10000000, 1, 1⟩
      ≠ scoreClaimFormula ⟨1, 1, 1⟩ ⟨1/10000000, 1, 1⟩ := by
  norm_num [score, scoreClaimFormula, max_def]

/-- C6 (amended): the implementation's score equals
`1 / (0.55·(lat/slo.lat) + 0.30·(cost/slo.cost) + 0.15·(energy/slo.energy))`
with each denominator floored (`max` with `1e-6` / `1e-9` / `1e-9`) —
equivalently, it equals the claim's formula whenever the SLO fields are
at least those floors — and among equally scored candidates of the
considered (safe) set the first maximum in iteration order wins. -/
theorem claim_C6_amended (est : String → Est) (slo : SLO) :
    ((1/1000000 : ℚ) ≤ slo.latency_p95_ms →
     (1/1000000000 : ℚ) ≤ slo.cost_per_1k →
     (1/1000000000 : ℚ) ≤ slo.energy_j_max →
      ∀ e : Est, score e slo = scoreClaimFormula e slo)
    ∧ (considered est slo).find?
        (fun t => (considered est slo).all
          (fun v => decide (score (est v) slo ≤ score (est t) slo)))
        = some (bestScoreDecide est slo).1 := by
  refine ⟨?_, bestScoreDecide_find? est slo⟩
  intro h1 h2 h3 e
  simp only [score, scoreClaimFormula]
  rw [max_eq_left h1, max_eq_left h2, max_eq_left h3]

/-- C6 amended claim applied at the demo estimator and SLO. -/
theorem claim_C6_witness :
    score ⟨1, 1, 1⟩ sloC = scoreClaimFormula ⟨1, 1, 1⟩ sloC
    ∧ (considered estC sloC).find?
        (fun t => (considered estC sloC).all
          (fun v => decide (score (estC v) sloC ≤ score (estC t) sloC)))
        = some (bestScoreDecide estC sloC).1 :=
  ⟨(claim_C6_amended estC sloC).1 (by norm_num [sloC]) (by norm_num [sloC])
      (by norm_num [sloC]) ⟨1, 1, 1⟩,
   (claim_C6_amended estC sloC).2⟩

/-- C7: for every tracked target `t` (both maps bind it) and every
observed outcome, `observe` adds exactly
`reward = 1/max(actual.cost, 1e-4) − 0.5·max(0, actual.lat_ms)` to
`mu[t]`, adds exactly 1 to `n[t]`, raises nothing, and leaves every
other target's `mu` and `n` unchanged. -/
theorem claim_C7 (s : EGState) (t : String) (c l m k : ℚ)
    (hm : alookup s.mu t = some m) (hk : alookup s.n t = some k) :
    (observe s t ⟨some c, some l⟩).1 = none
    ∧ alookup (observe s t ⟨some c, some l⟩).2.mu t
        = some (m + (1 / max c (1/10000) - (1/2 : ℚ) * max 0 l))
    ∧ alookup (observe s t ⟨some c, some l⟩).2.n t = some (k + 1)
    ∧ ∀ u, u ≠ t →
        alookup (observe s t ⟨some c, some l⟩).2.mu u = alookup s.mu u
        ∧ alookup (observe s t ⟨some c, some l⟩).2.n u = alookup s.n u := by
  have hr : rewardOf ⟨some c, some l⟩
      = 1 / max c (1/10000) - (1/2 : ℚ) * max 0 l := by
    simp [rewardOf]
  simp only [observe, hm, hk, hr]
  refine ⟨trivial, ?_, ?_, ?_⟩
  · exact alookup_aupdate_self _ _ _ (by simp [hm])
  · exact alookup_aupdate_self _ _ _ (by simp [hk])
  · intro u hu
    exact ⟨alookup_aupdate_ne _ _ _ _ hu, alookup_aupdate_ne _ _ _ _ hu⟩

/-- C7 applied to a fresh scheduler at target "gpu" with outcome
`{cost: 1, lat_ms: 2}`. -/
theorem claim_C7_witness :
    (observe (initEG (1/10) (1/20)) "gpu" ⟨some 1, some 2⟩).1 = none
    ∧ alookup (observe (initEG (1/10) (1/20)) "gpu"
        ⟨some 1, some 2⟩).2.mu "gpu"
        = some (0 + (1 / max 1 (1/10000) - (1/2 : ℚ) * max 0 2))
    ∧ alookup (observe (initEG (1/10) (1/20)) "gpu"
        ⟨some 1, some 2⟩).2.n "gpu" = some (1 + 1)
    ∧ alookup (observe (initEG (1/10) (1/20)) "gpu"
        ⟨some 1, some 2⟩).2.mu "cpu"
        = alookup (initEG (1/10) (1/20)).mu "cpu" := by
  have h := claim_C7 (initEG (1/10) (1/20)) "gpu" 1 2 0 1 (by rfl) (by rfl)
  exact ⟨h.1, h.2.1, h.2.2.1, (h.2.2.2 "cpu" (by decide)).1⟩

/-- C8: `observe` on a target id outside the tracked map fails with a
`KeyError` and leaves the state exactly as it was (no new per-target
state is created); a target outside `{photonic, gpu, cpu}` is untracked
in a freshly constructed scheduler. -/
theorem claim_C8 :
    (∀ (s : EGState) (t : String) (a : Outcome),
      alookup s.mu t = none → observe s t a = (some "KeyError", s))
    ∧ (∀ (eps canary : ℚ) (t : String), t ∉ cands →
        alookup (initEG eps canary).mu t = none
          ∧ alookup (initEG eps canary).n t = none) := by
  constructor
  · intro s t a h
    simp [observe, h]
  · intro eps canary t ht
    exact ⟨alookup_map_const_none _ _ _ ht, alookup_map_const_none _ _ _ ht⟩

/-- C8 applied to a fresh scheduler and the untracked id "tpu". -/
theorem claim_C8_witness :
    observe (initEG 0 0) "tpu" ⟨none, none⟩ = (some "KeyError", initEG 0 0)
    ∧ alookup (initEG 0 0).mu "tpu" = none :=
  ⟨claim_C8.1 _ _ _ (claim_C8.2 0 0 "tpu" (by decide)).1,
   (claim_C8.2 0 0 "tpu" (by decide)).1⟩

/-- C10: every tracked `n[t]` is 1 after construction, the invariant
`n[t] ≥ 1` is preserved by every `observe` call (error or not), and
under it every denominator `n[t]` read by `decide`'s exploit branch is
strictly positive — never zero. -/
theorem claim_C10 (eps canary : ℚ) :
    (∀ t v, alookup (initEG eps canary).n t = some v → 1 ≤ v)
    ∧ (∀ (s : EGState) (t : String) (a : Outcome),
        (∀ u v, alookup s.n u = some v → 1 ≤ v) →
        ∀ u v, alookup (observe s t a).2.n u = some v → 1 ≤ v)
    ∧ (∀ s : EGState, (∀ u v, alookup s.n u = some v → 1 ≤ v) →
        ∀ t k, alookup s.n t = some k → 0 < k) := by
  refine ⟨?_, ?_, ?_⟩
  · intro t v h
    simp only [initEG, cands, List.map_cons, List.map_nil,
      alookup_cons] at h
    split_ifs at h
    · simp only [Option.some.injEq] at h; linarith
    · simp only [Option.some.injEq] at h; linarith
    · simp only [Option.some.injEq] at h; linarith
    · simp [alookup] at h
  · intro s t a hInv u v h
    rcases hm : alookup s.mu t with _ | m
    · simp only [observe, hm] at h
      exact hInv u v h
    · rcases hn : alookup s.n t with _ | k
      · simp only [observe, hm, hn] at h
        exact hInv u v h
      · simp only [observe, hm, hn] at h
        by_cases hu : u = t
        · subst hu
          rw [alookup_aupdate_self _ _ _ (by simp [hn])] at h
          have hk1 : (1 : ℚ) ≤ k := hInv u k hn
          have : v = k + 1 := by injection h with h2; exact h2.symm
          linarith
        · rw [alookup_aupdate_ne _ _ _ _ hu] at h
          exact hInv u v h
  · intro s hInv t k h
    have := hInv t k h
    linarith

/-- C10 applied to a fresh scheduler and one observe call on "gpu". -/
theorem claim_C10_witness :
    alookup (observe (initEG 0 0) "gpu" ⟨some 1, some 1⟩).2.n "gpu"
        = some 2
    ∧ (1 : ℚ) ≤ 2 := by
  have h2 : alookup (observe (initEG 0 0) "gpu" ⟨some 1, some 1⟩).2.n "gpu"
      = some 2 := by
    simp [observe, initEG, cands, alookup, aupdate, rewardOf]
    norm_num
  refine ⟨h2, ?_⟩
  exact (claim_C10 0 0).2.1 (initEG 0 0) "gpu" ⟨some 1, some 1⟩
    ((claim_C10 0 0).1) "gpu" 2 h2

/-- C9: for every state whose maps track the three candidates, every
estimator/SLO and every random draw `r ∈ [0,1)`,
`ConstrainedEpsilonGreedy.decide` with `eps = 0` never explores — it
succeeds with mode "exploit" and returns an argmax over the safe set of
`score(estimate, slo) + mu[t]/n[t]` — and with `eps = 1` it always
explores, succeeding with mode "explore" and a member of the safe
set. -/
theorem claim_C9 (s : EGState) (est : String → Est) (slo : SLO) (r : ℚ)
    (i : ℕ) (hr0 : 0 ≤ r) (hr1 : r < 1)
    (htrack : ∀ t ∈ cands,
      (alookup s.mu t).isSome ∧ (alookup s.n t).isSome) :
    (s.eps = 0 →
      ∃ out : String × EGInfo, egDecide s est slo r i = .ok out
        ∧ out.2.mode = "exploit"
        ∧ out.1 ∈ considered est slo
        ∧ ∀ w ∈ considered est slo,
            egVal s est slo w ≤ egVal s est slo out.1)
    ∧ (s.eps = 1 →
      ∃ out : String × EGInfo, egDecide s est slo r i = .ok out
        ∧ out.2.mode = "explore"
        ∧ out.1 ∈ considered est slo) := by
  have hsafe := egSafe_eq_considered est slo
  constructor
  · intro he
    have hnlt : ¬ (r < s.eps) := by rw [he]; exact not_lt.mpr hr0
    rcases hc : considered est slo with _ | ⟨u, us⟩
    · exact absurd hc (considered_ne_nil est slo)
    · have hsub : ∀ t ∈ considered est slo,
          (alookup s.mu t).isSome ∧ (alookup s.n t).isSome :=
        fun t ht => htrack t (considered_subset_cands est slo t ht)
      rw [hc] at hsub
      have hvals := egVals_eq s est slo (u :: us) hsub
      simp only [egDecide, hsafe, hc, if_neg hnlt, hvals, except_bind_ok,
        List.map_cons]
      refine ⟨_, rfl, rfl, ?_, ?_⟩
      · exact (pyMaxBy_pairs (egVal s est slo) u us).1
      · exact (pyMaxBy_pairs (egVal s est slo) u us).2
  · intro he
    have hlt : r < s.eps := by rw [he]; exact hr1
    simp only [egDecide, hsafe, if_pos hlt]
    exact ⟨_, rfl, rfl, getD_mod_mem _ _ (considered_ne_nil est slo)⟩

/-- C9 applied to a fresh scheduler (its maps track the candidates)
with `eps = 0`: the decision succeeds in exploit mode. -/
theorem claim_C9_witness :
    ∃ out : String × EGInfo,
      egDecide (initEG 0 (1/20)) estC sloC (1/2) 0 = .ok out
        ∧ out.2.mode = "exploit"
        ∧ out.1 ∈ considered estC sloC := by
  have h := claim_C9 (initEG 0 (1/20)) estC sloC (1/2) 0 (by norm_num)
    (by norm_num) (by intro t ht; fin_cases ht <;> exact ⟨by rfl, by rfl⟩)
  obtain ⟨out, h1, h2, h3, _⟩ := h.1 rfl
  exact ⟨out, h1, h2, h3⟩

/-- C5: for every intent whose kind is not "bandwidth", the planner
fails with an error carrying the offending kind string, and
`submit_intent` propagates it, producing no plan and appending no audit
entry (the returned engine state is unchanged). -/
theorem claim_C5 (eng : EngineState) (tb ta : ResourceSnapshot)
    (applyF : List Action → Except String Unit) (intent : Intent)
    (planId : String) (t1 t2 : ℚ) (h : intent.kind ≠ "bandwidth") :
    plannerPlan eng.topology tb intent eng.policy planId t1
        = .error (.unsupportedKind intent.kind)
    ∧ submitIntent eng tb ta applyF intent planId t1 t2
        = (.error (.planErr (.unsupportedKind intent.kind)), eng) := by
  have hp : plannerPlan eng.topology tb intent eng.policy planId t1
      = .error (.unsupportedKind intent.kind) := by
    simp [plannerPlan, h]
  exact ⟨hp, by simp [submitIntent, hp]⟩

/-- C5 applied to a "latency"-kind intent. -/
theorem claim_C5_witness :
    plannerPlan engC.topology snapC intentBad engC.policy "p" 0
        = .error (.unsupportedKind intentBad.kind)
    ∧ submitIntent engC snapC snapC (fun _ => Except.ok ()) intentBad
        "p" 0 0
        = (.error (.planErr (.unsupportedKind intentBad.kind)), engC) :=
  claim_C5 engC snapC snapC _ intentBad "p" 0 0 (by decide)

/-- C1 counterexample: with an executor whose `apply` raises,
`submit_intent` returns the propagated exception — no Failed
`ExecutionResult` with message "apply_failed" is produced and the audit
log stays empty, contrary to the claim. -/
theorem claim_C1_counterexample :
    submitIntent engC snapC snapC (fun _ => Except.error "boom") intentC
        "p" 0 0
      = (.error (.applyExc "boom"), engC)
    ∧ engC.audit_log = [] := by
  constructor
  · have hplan : plannerPlan engC.topology snapC intentC engC.policy "p" 0
        = .ok planC := by rfl
    simp [submitIntent, hplan]
  · rfl

/-- C1 (amended): if `Executor.apply` raises, `submit_intent`
propagates the exception to the caller: no `ExecutionResult` is
produced, and the engine state (in particular the audit log) is left
unchanged. -/
theorem claim_C1_amended (eng : EngineState) (tb ta : ResourceSnapshot)
    (applyF : List Action → Except String Unit) (intent : Intent)
    (planId : String) (t1 t2 : ℚ) (plan : Plan) (e : String)
    (hplan : plannerPlan eng.topology tb intent eng.policy planId t1
      = .ok plan)
    (happly : applyF plan.actions = .error e) :
    submitIntent eng tb ta applyF intent planId t1 t2
      = (.error (.applyExc e), eng) := by
  simp [submitIntent, hplan, happly]

/-- C1 amended claim applied to a concrete failing executor. -/
theorem claim_C1_witness :
    submitIntent engC snapC snapC (fun _ => Except.error "x") intentC
        "p" 0 0
      = (.error (.applyExc "x"), engC) :=
  claim_C1_amended engC snapC snapC _ intentC "p" 0 0 planC "x"
    (by rfl) (by rfl)

/-- C2: for every "bandwidth" intent whose payload binds source,
destination and bandwidth_gbps, and whose apply step succeeds,
`submit_intent` returns exactly one `ExecutionResult`, appends exactly
one audit entry, and the plan carries exactly one action whose params
restate the intent's source, destination, bandwidth and max-latency
together with the policy's two thresholds. -/
theorem claim_C2 (eng : EngineState) (tb ta : ResourceSnapshot)
    (applyF : List Action → Except String Unit) (intent : Intent)
    (planId : String) (t1 t2 : ℚ) (vs vd : Value) (bw : ℚ)
    (hkind : intent.kind = "bandwidth")
    (hs : alookup intent.payload "source" = some vs)
    (hd : alookup intent.payload "destination" = some vd)
    (hb : alookup intent.payload "bandwidth_gbps" = some (.num bw))
    (happly : applyF [allocFlowAction vs vd bw
        ((alookup intent.payload "max_latency_ms").getD .pyNone)
        eng.policy] = .ok ()) :
    ∃ res : ExecutionResult,
      (submitIntent eng tb ta applyF intent planId t1 t2).1 = .ok res
      ∧ res.applied_actions = [allocFlowAction vs vd bw
          ((alookup intent.payload "max_latency_ms").getD .pyNone)
          eng.policy]
      ∧ (submitIntent eng tb ta applyF intent planId t1 t2).2.audit_log
          = eng.audit_log
            ++ [⟨intent.intent_id, planId, res.ok, res.message, t2⟩] := by
  have hplan : plannerPlan eng.topology tb intent eng.policy planId t1
      = .ok { plan_id := planId
              intent_id := intent.intent_id
              created_at := t1
              actions := [allocFlowAction vs vd bw
                ((alookup intent.payload "max_latency_ms").getD .pyNone)
                eng.policy]
              expected_impact :=
                [("goal", .str "satisfy_bandwidth_intent"),
                 ("notes",
                  .str "MVP stub planner emits allocate_flow action.")] } := by
    simp [plannerPlan, hkind, hs, hd, hb, pyFloat, allocFlowAction,
      Option.elim, except_bind_ok, Except.mapError]
  refine ⟨{ plan_id := planId
            ok := (if eng.policy.require_verification then
                verifyLoop eng.policy.max_packet_loss ta.link_loss
              else (true, Msg.applied)).1
            applied_actions := [allocFlowAction vs vd bw
              ((alookup intent.payload "max_latency_ms").getD .pyNone)
              eng.policy]
            before := tb
            after := ta
            message := (if eng.policy.require_verification then
                verifyLoop eng.policy.max_packet_loss ta.link_loss
              else (true, Msg.applied)).2 }, ?_, rfl, ?_⟩
  · simp [submitIntent, hplan, happly]
  · simp [submitIntent, hplan, happly]

/-- C2 applied to the demo engine, intent and a succeeding executor. -/
theorem claim_C2_witness :
    ∃ res : ExecutionResult,
      (submitIntent engC snapC snapC (fun _ => Except.ok ()) intentC
          "p" 0 0).1 = .ok res
      ∧ res.applied_actions = [allocFlowAction (.str "A") (.str "C") 50
          ((alookup intentC.payload "max_latency_ms").getD .pyNone)
          engC.policy]
      ∧ (submitIntent engC snapC snapC (fun _ => Except.ok ()) intentC
          "p" 0 0).2.audit_log
          = engC.audit_log
            ++ [⟨intentC.intent_id, "p", res.ok, res.message, 0⟩] :=
  claim_C2 engC snapC snapC _ intentC "p" 0 0 (.str "A") (.str "C") 50
    (by rfl) (by rfl) (by rfl) (by rfl) (by rfl)

/-- C3: when the plan applies and verification is required, the result
fails iff some measured loss in the after-snapshot exceeds the
threshold; the reported message carries the first offending loss (in
iteration order) together with the threshold, and otherwise the result
is ok with message "applied". -/
theorem claim_C3 (eng : EngineState) (tb ta : ResourceSnapshot)
    (applyF : List Action → Except String Unit) (intent : Intent)
    (planId : String) (t1 t2 : ℚ) (plan : Plan) (res : ExecutionResult)
    (hplan : plannerPlan eng.topology tb intent eng.policy planId t1
      = .ok plan)
    (happly : applyF plan.actions = .ok ())
    (hver : eng.policy.require_verification = true)
    (hres : (submitIntent eng tb ta applyF intent planId t1 t2).1
      = .ok res) :
    ((∃ kv ∈ ta.link_loss, eng.policy.max_packet_loss < kv.2) ↔
      (ta.link_loss.find?
        (fun kv => decide (eng.policy.max_packet_loss < kv.2))).isSome)
    ∧ (∀ kv, ta.link_loss.find?
          (fun kv => decide (eng.policy.max_packet_loss < kv.2))
          = some kv →
        res.ok = false
          ∧ res.message
            = .verificationFailed kv.2 eng.policy.max_packet_loss)
    ∧ ((∀ kv ∈ ta.link_loss, kv.2 ≤ eng.policy.max_packet_loss) →
        res.ok = true ∧ res.message = .applied) := by
  simp only [submitIntent, hplan, happly, hver, if_true,
    Except.ok.injEq] at hres
  have hv := verifyLoop_eq_find? eng.policy.max_packet_loss ta.link_loss
  refine ⟨?_, ?_, ?_⟩
  · constructor
    · rintro ⟨kv, hmem, hlt⟩
      rw [List.find?_isSome]
      exact ⟨kv, hmem, decide_eq_true hlt⟩
    · intro hsome
      rw [List.find?_isSome] at hsome
      obtain ⟨kv, hmem, hp⟩ := hsome
      exact ⟨kv, hmem, of_decide_eq_true hp⟩
  · intro kv hkv
    rw [hkv] at hv
    rw [← hres]
    simp [hv]
  · intro hall
    have hnone : ta.link_loss.find?
        (fun kv => decide (eng.policy.max_packet_loss < kv.2)) = none := by
      rcases hfind : ta.link_loss.find?
          (fun kv => decide (eng.policy.max_packet_loss < kv.2))
          with _ | kv
      · exact hfind
      · have h1 := List.mem_of_find?_eq_some hfind
        have h2 : eng.policy.max_packet_loss < kv.2 := by
          simpa using List.find?_some hfind
        exact absurd h2 (not_lt.mpr (hall kv h1))
    rw [hnone] at hv
    rw [← hres]
    simp [hv]

/-- C3 applied to the demo scenario: the after-snapshot's first
offending loss is 0.030 on link A–C, so the result fails citing
0.030 against the threshold 0.020. -/
theorem claim_C3_witness :
    resC.ok = false
    ∧ resC.message = .verificationFailed (3/100) (2/100) := by
  have hplan : plannerPlan engC.topology snapC intentC engC.policy "p" 0
      = .ok planC := by rfl
  have hres : (submitIntent engC snapC snapC (fun _ => Except.ok ())
      intentC "p" 0 0).1 = .ok resC := by
    simp only [submitIntent]
    rw [hplan]
    norm_num [engC, snapC, planC, resC, verifyLoop]
  have hfind : snapC.link_loss.find?
      (fun kv => decide (engC.policy.max_packet_loss < kv.2))
      = some (("A", "C"), 3/100) := by
    norm_num [snapC, engC, List.find?]
  exact (claim_C3 engC snapC snapC (fun _ => Except.ok ()) intentC "p" 0 0
    planC resC hplan rfl rfl hres).2.1 (("A", "C"), 3/100) hfind

end Starstream
